import Mathlib

/-!
Verification of the ungoliant corpus pipeline against its specification.

The development shallowly embeds the two source files
`src/pipelines/oscardoc/types/rebuild.rs` and
`src/pipelines/oscarmeta/pipeline.rs`:

* the provenance data model (`Identification`, `Metadata`, `Location`,
  `RebuildInformation`, `ShardResult`) and its Avro serialization,
  modelled at the Avro value level (the binary block encoding and Snappy
  compression belong to the external `avro_rs` library);
* the filesystem-facing constructors `RebuildWriter::from_path` and
  `RebuildWriters::with_dst`, with the destination directory modelled as
  an association list of named files;
* the record-processing stage `OscarMetadata::process_record` /
  `identify_sentence`, with the external classifier and the UTF-8 decoder
  as parameters, and the unordered delivery of rayon's `par_bridge`
  modelled by an arbitrary permutation-producing schedule;
* the shard loop of `OscarMetadata::run`;
* the per-language line-counter writer, modelled from the specification
  (its Rust code, `crate::io::LangFiles`, is not part of the sources at
  hand): one atomic append per piece returning the starting line number.

Machine integers (`usize`, `i64`) are modelled as `Nat`/`Int`; the `f32`
probability field is carried as its 32-bit pattern (`Nat`), which is what
serialization transports.
-/

set_option maxRecDepth 8000

namespace Ungoliant

/- ### Data model (`oscardoc/types`) -/

/-- Mirrors the `Identification` struct serialized under the journal schema:
a classifier label together with the bit pattern of its `f32` probability. -/
structure Identification where
  label : String
  prob : Nat
  deriving DecidableEq, Repr

/-- Mirrors the `Metadata` struct of the schema: piece-level identification,
optional annotation list, and per-sentence optional identifications.
The Rust struct is in `oscardoc/types` (not among the given sources); the
field set is fixed by the `metadata_record` schema in `rebuild.rs`. -/
structure Metadata where
  identification : Identification
  annotation : Option (List String)
  sentence_identifications : List (Option Identification)
  deriving DecidableEq, Repr

/-- Mirrors the `Location` struct (fields as consumed by
`RebuildInformation::new` and produced by `Location::new` in `rebuild.rs`). -/
structure Location where
  shard_id : Nat
  record_id : String
  line_start : Nat
  line_end : Nat
  loc_in_shard : Nat
  deriving DecidableEq, Repr

/-- Mirrors `Location::new`. -/
def Location.new (shard_id : Nat) (record_id : String) (line_start : Nat)
    (line_end : Nat) (loc_in_shard : Nat) : Location :=
  ⟨shard_id, record_id, line_start, line_end, loc_in_shard⟩

/-- Mirrors the `RebuildInformation` struct of `rebuild.rs`: the five
`Location` fields flattened, plus the piece `Metadata`. -/
structure RebuildInformation where
  shard_id : Nat
  record_id : String
  line_start : Nat
  line_end : Nat
  loc_in_shard : Nat
  metadata : Metadata
  deriving DecidableEq, Repr

/-- Mirrors `RebuildInformation::new`: copies each `Location` field and
takes the metadata. -/
def RebuildInformation.new (location : Location) (metadata : Metadata) :
    RebuildInformation :=
  { shard_id := location.shard_id
    record_id := location.record_id
    line_start := location.line_start
    line_end := location.line_end
    loc_in_shard := location.loc_in_shard
    metadata := metadata }

/-- Mirrors `RebuildInformation::into_raw_parts`: rebuilds the `Location`
via `Location::new` and returns it with the metadata. -/
def RebuildInformation.into_raw_parts (r : RebuildInformation) :
    Location × Metadata :=
  (Location.new r.shard_id r.record_id r.line_start r.line_end r.loc_in_shard,
    r.metadata)

/-- Mirrors the `ShardResult` struct of `rebuild.rs`. -/
structure ShardResult where
  shard_id : Int
  rebuild_info : List RebuildInformation
  deriving DecidableEq, Repr

/-- Mirrors `ShardResult::new`: zips locations with metadata into
`RebuildInformation` entries. -/
def ShardResult.new (shard_id : Int) (locations : List Location)
    (metadata : List Metadata) : ShardResult :=
  { shard_id := shard_id
    rebuild_info :=
      (locations.zip metadata).map fun lm => RebuildInformation.new lm.1 lm.2 }

/- ### Avro serialization at the value level (`SCHEMA` in `rebuild.rs`) -/

/-- Avro values as produced by `avro_rs` serde serialization: records are
ordered field lists, unions carry the chosen branch. -/
inductive AvroValue where
  | null
  | long (i : Int)
  | float (bits : Nat)
  | string (s : String)
  | array (items : List AvroValue)
  | union (v : AvroValue)
  | record (fields : List (String × AvroValue))

/-- Encoding of `Identification` under the `identification` record schema
(fields `label : string`, `prob : float`, in schema order). -/
def encodeIdentification (i : Identification) : AvroValue :=
  .record [("label", .string i.label), ("prob", .float i.prob)]

/-- Encoding of the `["null", array<string>]` union used by the
`annotation` field. -/
def encodeOptList : Option (List String) → AvroValue
  | none => .union .null
  | some xs => .union (.array (xs.map .string))

/-- Encoding of the `["null", "identification"]` union items of the
`sentence_identifications` array. -/
def encodeOptIdent : Option Identification → AvroValue
  | none => .union .null
  | some i => .union (encodeIdentification i)

/-- Encoding of `Metadata` under the `metadata_record` schema
(fields in schema order). -/
def encodeMetadata : Metadata → AvroValue
  | ⟨ident, ann, sids⟩ =>
    .record
      [("identification", encodeIdentification ident),
        ("annotation", encodeOptList ann),
        ("sentence_identifications", .array (sids.map encodeOptIdent))]

/-- Encoding of `RebuildInformation` under the `rebuild_information`
schema; `usize` fields travel as Avro `long`. -/
def encodeRebuildInformation (r : RebuildInformation) : AvroValue :=
  .record
    [("shard_id", .long (Int.ofNat r.shard_id)),
      ("record_id", .string r.record_id),
      ("line_start", .long (Int.ofNat r.line_start)),
      ("line_end", .long (Int.ofNat r.line_end)),
      ("loc_in_shard", .long (Int.ofNat r.loc_in_shard)),
      ("metadata", encodeMetadata r.metadata)]

/-- Encoding of `ShardResult` under the top-level `shard_result` schema. -/
def encodeShardResult (s : ShardResult) : AvroValue :=
  .record
    [("shard_id", .long s.shard_id),
      ("rebuild_info", .array (s.rebuild_info.map encodeRebuildInformation))]

/-- Decoding of a schema `array` value, element by element, failing if any
element fails. -/
def decodeList (f : AvroValue → Option α) : List AvroValue → Option (List α)
  | [] => some []
  | v :: vs => do
    let x ← f v
    let xs ← decodeList f vs
    some (x :: xs)

/-- Decoding of a schema `string` value. -/
def decodeString : AvroValue → Option String
  | .string s => some s
  | _ => none

/-- Decoding of a `long`-encoded `usize`: negative longs do not come from
a `usize` and are rejected. -/
def decodeLongNat : AvroValue → Option Nat
  | .long i => if 0 ≤ i then some i.toNat else none
  | _ => none

/-- Decoding of an `identification` record. -/
def decodeIdentification : AvroValue → Option Identification
  | .record [("label", .string l), ("prob", .float p)] => some ⟨l, p⟩
  | _ => none

/-- Decoding of the `annotation` union. -/
def decodeOptList : AvroValue → Option (Option (List String))
  | .union .null => some none
  | .union (.array xs) => (decodeList decodeString xs).map some
  | _ => none

/-- Decoding of one `sentence_identifications` item. -/
def decodeOptIdent : AvroValue → Option (Option Identification)
  | .union .null => some none
  | .union v => (decodeIdentification v).map some
  | _ => none

/-- Decoding of a `metadata_record` value. -/
def decodeMetadata : AvroValue → Option Metadata
  | .record [("identification", iv), ("annotation", av),
      ("sentence_identifications", .array sv)] => do
    let i ← decodeIdentification iv
    let a ← decodeOptList av
    let s ← decodeList decodeOptIdent sv
    some ⟨i, a, s⟩
  | _ => none

/-- Decoding of a `rebuild_information` value. -/
def decodeRebuildInformation : AvroValue → Option RebuildInformation
  | .record [("shard_id", sv), ("record_id", rv), ("line_start", lsv),
      ("line_end", lev), ("loc_in_shard", liv), ("metadata", mv)] => do
    let sid ← decodeLongNat sv
    let rid ← decodeString rv
    let ls ← decodeLongNat lsv
    let le ← decodeLongNat lev
    let li ← decodeLongNat liv
    let m ← decodeMetadata mv
    some ⟨sid, rid, ls, le, li, m⟩
  | _ => none

/-- Decoding of a top-level `shard_result` value. -/
def decodeShardResult : AvroValue → Option ShardResult
  | .record [("shard_id", .long sid), ("rebuild_info", .array rv)] => do
    let ri ← decodeList decodeRebuildInformation rv
    some ⟨sid, ri⟩
  | _ => none

/- ### Round-trip lemmas for the Avro encoding -/

theorem decode_encode_identification (i : Identification) :
    decodeIdentification (encodeIdentification i) = some i := by
  cases i; rfl

theorem decode_encode_optIdent (o : Option Identification) :
    decodeOptIdent (encodeOptIdent o) = some o := by
  cases o with
  | none => rfl
  | some i =>
    cases i with
    | mk l p =>
      simp [encodeOptIdent, decodeOptIdent, encodeIdentification,
        decodeIdentification]

theorem decodeList_map_encode {α : Type} (f : AvroValue → Option α)
    (g : α → AvroValue) (hfg : ∀ a, f (g a) = some a) (l : List α) :
    decodeList f (l.map g) = some l := by
  induction l with
  | nil => rfl
  | cons x xs ih =>
    simp [decodeList, hfg, ih]

theorem decode_encode_optList (o : Option (List String)) :
    decodeOptList (encodeOptList o) = some o := by
  cases o with
  | none => rfl
  | some xs =>
    simp [encodeOptList, decodeOptList,
      decodeList_map_encode decodeString AvroValue.string (fun a => rfl)]

theorem decode_encode_metadata (m : Metadata) :
    decodeMetadata (encodeMetadata m) = some m := by
  cases m with
  | mk i a s =>
    simp [encodeMetadata, decodeMetadata, decode_encode_identification,
      decode_encode_optList,
      decodeList_map_encode decodeOptIdent encodeOptIdent decode_encode_optIdent]

theorem decodeLongNat_ofNat (n : Nat) :
    decodeLongNat (.long (Int.ofNat n)) = some n := by
  simp [decodeLongNat]

theorem decode_encode_rebuildInformation (r : RebuildInformation) :
    decodeRebuildInformation (encodeRebuildInformation r) = some r := by
  cases r with
  | mk sid rid ls le li m =>
    simp [encodeRebuildInformation, decodeRebuildInformation, decodeLongNat,
      decodeString, decode_encode_metadata]

/- ### Claim theorems: C3 and C10 -/

/-- C3: serializing any `ShardResult` — including one with an empty
`rebuild_info` list and entries whose optional fields are null — with the
journal's Avro schema and deserializing yields a value equal to the
original (round trip at the Avro value level). -/
theorem shardResult_serialization_roundtrip (s : ShardResult) :
    decodeShardResult (encodeShardResult s) = some s := by
  cases s with
  | mk sid ri =>
    simp [encodeShardResult, decodeShardResult,
      decodeList_map_encode decodeRebuildInformation encodeRebuildInformation
        decode_encode_rebuildInformation]

/-- C10: `RebuildInformation::new` followed by `into_raw_parts` returns
exactly the original `(Location, Metadata)` pair, and rebuilding a
`RebuildInformation` from its raw parts restores it — no field is altered
or lost in either direction. -/
theorem rebuildInformation_raw_parts_roundtrip :
    (∀ (loc : Location) (meta : Metadata),
      (RebuildInformation.new loc meta).into_raw_parts = (loc, meta)) ∧
    (∀ r : RebuildInformation,
      RebuildInformation.new r.into_raw_parts.1 r.into_raw_parts.2 = r) := by
  constructor
  · intro loc meta
    cases loc; rfl
  · intro r
    cases r; rfl

/- ### Filesystem model for the provenance root (`rebuild.rs`) -/

/-- State of the provenance root path: absent callers pass `none`; otherwise
the path is a regular file or a directory whose entries are named files.
Journal contents are modelled at the record level (`List ShardResult`);
the binary block encoding belongs to the avro library. -/
inductive FsNode where
  | file (content : List ShardResult)
  | dir (entries : List (String × List ShardResult))
  deriving DecidableEq, Repr

/-- Mirrors `RebuildWriters::forge_dst`: the journal for a language lives at
`<dst>/<lang>.avro`; in the model only the file name matters. -/
def forge_dst (lang : String) : String := lang ++ ".avro"

/-- Models `std::fs::File::create` inside an existing directory: creates the
file when absent, truncates it to empty when present. -/
def fileCreate (entries : List (String × List ShardResult)) (name : String) :
    List (String × List ShardResult) :=
  if entries.any (fun e => e.1 == name) then
    entries.map (fun e => if e.1 == name then (name, []) else e)
  else entries ++ [(name, [])]

/-- Content of the named file of a directory, when present. -/
def lookupFile (entries : List (String × List ShardResult)) (name : String) :
    Option (List ShardResult) :=
  (entries.find? (fun e => e.1 == name)).map (fun e => e.2)

/-- Mirrors `RebuildWriter::from_path`: `File::create(dst)?` then wrapping
the schema writer around the file.  Inside an existing parent directory the
creation succeeds (create-or-truncate), so the model always returns `ok`. -/
def RebuildWriter.from_path (entries : List (String × List ShardResult))
    (name : String) : Except String (List (String × List ShardResult)) :=
  .ok (fileCreate entries name)

/-- Mirrors `RebuildWriters::with_dst`, returning the final state of the
root path together with the error-level log lines emitted.  Step by step as
in the source: create the directory when the path is absent; when the path
is a regular file, log only, and then propagate the `read_dir()?` failure;
when the directory is non-empty, log only; finally create one
`<lang>.avro` journal per language of the table via
`RebuildWriter::from_path` (each of which succeeds in the model). -/
def RebuildWriters.with_dst (langs : List String) (root : Option FsNode) :
    Except String FsNode × List String :=
  let node := match root with
    | none => FsNode.dir []
    | some n => n
  match node with
  | .file _ =>
    (.error "read_dir: not a directory",
      ["rebuild destination must be an empty folder!"])
  | .dir entries =>
    let logs :=
      if entries.isEmpty then []
      else ["rebuild destination folder must be empty!"]
    let entries2 :=
      langs.foldl (fun es lang => fileCreate es (forge_dst lang)) entries
    (.ok (FsNode.dir entries2), logs)

theorem forge_dst_injective : Function.Injective forge_dst := by
  intro a b h
  have hdata : a.data ++ ".avro".data = b.data ++ ".avro".data := by
    have h2 := congrArg String.data h
    simpa [forge_dst] using h2
  exact String.ext (List.append_cancel_right hdata)

theorem fileCreate_fresh (es : List (String × List ShardResult))
    (name : String) (hfresh : ∀ e ∈ es, e.1 ≠ name) :
    fileCreate es name = es ++ [(name, [])] := by
  have hany : es.any (fun e => e.1 == name) = false := by
    simp only [List.any_eq_false]
    intro e he
    simpa using hfresh e he
  simp [fileCreate, hany]

theorem foldl_fileCreate_fresh (langs : List String)
    (es : List (String × List ShardResult))
    (hfresh : ∀ l ∈ langs, ∀ e ∈ es, e.1 ≠ forge_dst l)
    (hnodup : langs.Nodup) :
    langs.foldl (fun es lang => fileCreate es (forge_dst lang)) es =
      es ++ langs.map (fun lang => (forge_dst lang, [])) := by
  induction langs generalizing es with
  | nil => simp
  | cons l ls ih =>
    have hstep : fileCreate es (forge_dst l) = es ++ [(forge_dst l, [])] :=
      fileCreate_fresh es (forge_dst l)
        (fun e he => hfresh l (List.mem_cons_self l ls) e he)
    have hnodup' : ls.Nodup := (List.nodup_cons.mp hnodup).2
    have hne : l ∉ ls := (List.nodup_cons.mp hnodup).1
    have hfresh' : ∀ l' ∈ ls, ∀ e ∈ es ++ [(forge_dst l, [])],
        e.1 ≠ forge_dst l' := by
      intro l' hl' e he
      rcases List.mem_append.mp he with h1 | h1
      · exact hfresh l' (List.mem_cons_of_mem l hl') e h1
      · have : e = (forge_dst l, []) := by simpa using h1
        subst this
        intro hcontra
        exact hne (forge_dst_injective hcontra ▸ hl')
    calc (l :: ls).foldl (fun es lang => fileCreate es (forge_dst lang)) es
        = ls.foldl (fun es lang => fileCreate es (forge_dst lang))
            (es ++ [(forge_dst l, [])]) := by
          simp [List.foldl_cons, hstep]
      _ = es ++ [(forge_dst l, [])] ++
            ls.map (fun lang => (forge_dst lang, [])) :=
          ih (es ++ [(forge_dst l, [])]) hfresh' hnodup'
      _ = es ++ (l :: ls).map (fun lang => (forge_dst lang, [])) := by
          simp

/- ### Claim theorems: C1, C7, C9 -/

/-- C1: evaluation of `with_dst` at the failing input.  Against a root that
is an existing directory already containing an entry, construction merely
logs "rebuild destination folder must be empty!" and then succeeds,
creating the per-language journal files inside the non-empty root — it
does not return an error before creating files, even though its own error
message states the root must be empty. -/
theorem with_dst_nonempty_dir_still_creates_files :
    RebuildWriters.with_dst ["en", "fr"]
        (some (.dir [("stale", [⟨0, []⟩])])) =
      (.ok (.dir [("stale", [⟨0, []⟩]), ("en.avro", []), ("fr.avro", [])]),
        ["rebuild destination folder must be empty!"]) := by
  rfl

/-- C7: against an absent root or an existing empty directory root,
`with_dst` succeeds with no error log, and the root ends as a directory
holding exactly one empty journal per language of the (duplicate-free)
supported table, named `<lang>.avro`; the journal names are pairwise
distinct. -/
theorem with_dst_fresh_creates_one_journal_per_lang
    (langs : List String) (root : Option FsNode)
    (hroot : root = none ∨ root = some (.dir []))
    (hnodup : langs.Nodup) :
    RebuildWriters.with_dst langs root =
      (.ok (.dir (langs.map (fun lang => (forge_dst lang, [])))), []) ∧
    (langs.map forge_dst).Nodup := by
  have hfold :
      langs.foldl (fun es lang => fileCreate es (forge_dst lang)) [] =
        langs.map (fun lang => (forge_dst lang, [])) := by
    simpa using foldl_fileCreate_fresh langs [] (by simp) hnodup
  constructor
  · rcases hroot with h | h <;> subst h <;>
      simp [RebuildWriters.with_dst, hfold]
  · exact hnodup.map forge_dst_injective

/-- Witness for C7 at the concrete table `["en", "fr"]` and an absent
root. -/
theorem with_dst_fresh_creates_one_journal_per_lang_witness :
    ((none : Option FsNode) = none ∨
        (none : Option FsNode) = some (.dir [])) ∧
    (["en", "fr"] : List String).Nodup ∧
    (RebuildWriters.with_dst ["en", "fr"] none =
        (.ok (.dir [("en.avro", []), ("fr.avro", [])]), []) ∧
      (["en", "fr"].map forge_dst).Nodup) :=
  ⟨Or.inl rfl, by decide,
    with_dst_fresh_creates_one_journal_per_lang ["en", "fr"] none
      (Or.inl rfl) (by decide)⟩

theorem find?_fileCreate_map (entries : List (String × List ShardResult))
    (name : String)
    (hany : entries.any (fun e => e.1 == name) = true) :
    (entries.map (fun e => if e.1 == name then (name, ([] : List ShardResult))
        else e)).find? (fun e => e.1 == name) = some (name, []) := by
  induction entries with
  | nil => simp at hany
  | cons h t ih =>
    by_cases hh : h.1 = name
    · simp [List.find?, hh]
    · have hh' : (h.1 == name) = false := by simpa using hh
      have hany' : t.any (fun e => e.1 == name) = true := by
        simpa [List.any_cons, hh'] using hany
      simpa [List.find?, hh'] using ih hany'

/-- C9: when a file already exists at the journal path, `from_path`
succeeds — it does not return an error, despite its own doc comment — and
the existing file is truncated to empty (`File::create` semantics), with no
other entry added or removed. -/
theorem from_path_truncates_existing
    (entries : List (String × List ShardResult)) (name : String)
    (content : List ShardResult)
    (hmem : (name, content) ∈ entries) :
    ∃ entries2, RebuildWriter.from_path entries name = .ok entries2 ∧
      lookupFile entries2 name = some [] ∧
      entries2.length = entries.length := by
  have hany : entries.any (fun e => e.1 == name) = true := by
    simp only [List.any_eq_true]
    exact ⟨(name, content), hmem, by simp⟩
  refine ⟨fileCreate entries name, rfl, ?_, ?_⟩
  · simp only [fileCreate, hany, if_true, lookupFile]
    rw [find?_fileCreate_map entries name hany]
    rfl
  · simp [fileCreate, hany]

/-- Witness for C9 at a one-entry directory whose journal holds previous
content. -/
theorem from_path_truncates_existing_witness :
    (("en.avro", [(⟨0, []⟩ : ShardResult)]) ∈
        [("en.avro", [(⟨0, []⟩ : ShardResult)])]) ∧
    (∃ entries2,
      RebuildWriter.from_path [("en.avro", [(⟨0, []⟩ : ShardResult)])]
          "en.avro" = .ok entries2 ∧
      lookupFile entries2 "en.avro" = some [] ∧
      entries2.length = [("en.avro", [(⟨0, []⟩ : ShardResult)])].length) :=
  ⟨List.mem_singleton.mpr rfl,
    from_path_truncates_existing _ "en.avro" [⟨0, []⟩]
      (List.mem_singleton.mpr rfl)⟩

/- ### Record processing (`oscarmeta/pipeline.rs`) -/

/-- Split of a character list at every newline, keeping empty segments
(the split-separator part of Rust `str::lines`). -/
def splitNewline : List Char → List (List Char)
  | [] => [[]]
  | c :: rest =>
    if c = '\n' then [] :: splitNewline rest
    else
      match splitNewline rest with
      | l :: ls => (c :: l) :: ls
      | [] => [[c]]

/-- Strip of one trailing carriage return, as Rust `str::lines` does to
each line. -/
def stripCR (l : List Char) : List Char :=
  if l.getLast? = some '\r' then l.dropLast else l

/-- Models Rust `String::lines` as used in `process_record`: split at
newlines, drop the final empty segment produced by a trailing newline, and
strip one trailing carriage return from each line. -/
def rustLines (s : String) : List String :=
  match s.data with
  | [] => []
  | cs =>
    let parts := splitNewline cs
    let parts := if cs.getLast? = some '\n' then parts.dropLast else parts
    parts.map (fun l => String.mk (stripCR l))

/-- Mirrors `OscarMetadata::identify_sentence`.  The fastText classifier is
the external collaborator of §6, `predict(text) → optional label` (the
probability part of the prediction is unused here, and a failing predict
call is treated as no prediction); a predicted label is accepted only when
the static supported-language table contains it, in which case the table's
copy of the label is returned with the sentence.  (The warning log on an
unknown label is not modelled.) -/
def identify_sentence (cls : String → Option String) (langs : List String)
    (sentence : String) : Option (String × String) :=
  match cls sentence with
  | some label =>
    match langs.find? (fun l => l == label) with
    | some lang => some (sentence, lang)
    | none => none
  | none => none

/-- Mirrors `OscarMetadata::process_record`, returning the record's result
and the error log lines emitted.  The UTF-8 decoding of the raw body
(`String::from_utf8`) is the parameter `decodeUtf8`; rayon's `par_bridge`
delivers the classified sentences to `collect` in an unspecified order,
modelled by the schedule parameter `sched` — an admissible schedule
permutes its input.  On decode failure the record is dropped with an
error log. -/
def process_record (sched : List (String × String) → List (String × String))
    (cls : String → Option String) (langs : List String)
    (decodeUtf8 : List Nat → Option String)
    (recordId : String) (headers : List (String × String))
    (body : List Nat) :
    Option (List (String × String) × List (String × String)) × List String :=
  match decodeUtf8 body with
  | some text =>
    let kept := (rustLines text).filter (fun line => 100 < line.length)
    (some (sched (kept.filterMap (identify_sentence cls langs)), headers), [])
  | none => (none, ["body not UTF-8 valid: " ++ recordId])

/-- One raw record of a shard: warc id, header map, byte body. -/
structure RawRecord where
  warc_id : String
  headers : List (String × String)
  body : List Nat

/-- Mirrors the record loop of `OscarMetadata::run` over one shard:
`Err` records are logged (warn) and skipped, records whose body fails
UTF-8 decoding are dropped by `process_record` (with its error log), and
the surviving results are collected. -/
def process_shard_records
    (sched : List (String × String) → List (String × String))
    (cls : String → Option String) (langs : List String)
    (decodeUtf8 : List Nat → Option String) :
    List (Except String RawRecord) →
      List (List (String × String) × List (String × String)) × List String
  | [] => ([], [])
  | .error e :: rest =>
    let o := process_shard_records sched cls langs decodeUtf8 rest
    (o.1, ("Error on record: " ++ e) :: o.2)
  | .ok r :: rest =>
    let o := process_shard_records sched cls langs decodeUtf8 rest
    match process_record sched cls langs decodeUtf8 r.warc_id r.headers
        r.body with
    | (some res, logs) => (res :: o.1, logs ++ o.2)
    | (none, logs) => (o.1, logs ++ o.2)

/-- Models `String::from_utf8` restricted to the ASCII plane: byte values
below 128 decode to themselves, anything else is rejected.  Real UTF-8
additionally accepts well-formed multi-byte sequences; the theorems are
parametric in the decoder, and this instance serves the concrete
witnesses (on which it agrees with full UTF-8). -/
def asciiDecode (bytes : List Nat) : Option String :=
  if bytes.all (fun b => b < 128) then
    some (String.mk (bytes.map (fun b => Char.ofNat b)))
  else none

/- ### Claim theorem: C8 -/

/-- C8: a record whose body fails UTF-8 decoding is dropped entirely by
`process_record`, which logs the failure; in the shard's record loop the
failure is not propagated — the collected results are exactly those of the
remaining records, and processing continues. -/
theorem invalid_utf8_record_dropped
    (sched : List (String × String) → List (String × String))
    (cls : String → Option String) (langs : List String)
    (decodeUtf8 : List Nat → Option String)
    (r : RawRecord) (rest : List (Except String RawRecord))
    (hbad : decodeUtf8 r.body = none) :
    process_record sched cls langs decodeUtf8 r.warc_id r.headers r.body =
      (none, ["body not UTF-8 valid: " ++ r.warc_id]) ∧
    process_shard_records sched cls langs decodeUtf8 (.ok r :: rest) =
      ((process_shard_records sched cls langs decodeUtf8 rest).1,
        ("body not UTF-8 valid: " ++ r.warc_id) ::
          (process_shard_records sched cls langs decodeUtf8 rest).2) := by
  have h1 : process_record sched cls langs decodeUtf8 r.warc_id r.headers
      r.body = (none, ["body not UTF-8 valid: " ++ r.warc_id]) := by
    simp [process_record, hbad]
  exact ⟨h1, by simp [process_shard_records, h1]⟩

/-- Witness for C8: a one-byte body `[255]` is not valid UTF-8; the record
is dropped with a log and an empty remainder is unaffected. -/
theorem invalid_utf8_record_dropped_witness :
    asciiDecode [255] = none ∧
    (process_record id (fun _ => none) [] asciiDecode "rec-0" [] [255] =
        (none, ["body not UTF-8 valid: " ++ "rec-0"]) ∧
      process_shard_records id (fun _ => none) [] asciiDecode
          [.ok ⟨"rec-0", [], [255]⟩] =
        ((process_shard_records id (fun _ => none) [] asciiDecode []).1,
          ("body not UTF-8 valid: " ++ "rec-0") ::
            (process_shard_records id (fun _ => none) [] asciiDecode
              []).2)) :=
  ⟨by decide,
    invalid_utf8_record_dropped id (fun _ => none) [] asciiDecode
      ⟨"rec-0", [], [255]⟩ [] (by decide)⟩

/- ### Concrete demo record for the ordering claims -/

/-- Concrete 101-character English-tagged line. -/
def lineEN : String := String.mk (List.replicate 101 'e')

/-- Concrete 101-character French-tagged line. -/
def lineFR : String := String.mk (List.replicate 101 'f')

/-- A two-line body text: the English line, then the French line. -/
def demoText : String := lineEN ++ "\n" ++ lineFR

/-- The demo text, as the raw bytes of an ASCII body. -/
def demoBody : List Nat := demoText.data.map Char.toNat

/-- A concrete classifier instance: tags the demo lines and rejects
everything else. -/
def demoCls (s : String) : Option String :=
  if s = lineEN then some "en" else if s = lineFR then some "fr" else none

/-- A concrete two-language supported table. -/
def demoLangs : List String := ["en", "fr"]

/- ### Claim theorems: C4 -/

/-- C4 counterexample: reversing is an admissible delivery order for
`par_bridge` (it permutes the classified pairs), yet under it
`process_record` returns the demo record's two pairs in the reverse of
their original line order — the result ordering is not restored by index,
so the ordering claim fails as stated. -/
theorem process_record_order_not_restored :
    (List.reverse [(lineEN, "en"), (lineFR, "fr")]).Perm
        [(lineEN, "en"), (lineFR, "fr")] ∧
    (process_record List.reverse demoCls demoLangs asciiDecode "rec-0" []
        demoBody).1 =
      some ([(lineFR, "fr"), (lineEN, "en")], []) ∧
    ([(lineFR, "fr"), (lineEN, "en")] : List (String × String)) ≠
      [(lineEN, "en"), (lineFR, "fr")] := by
  refine ⟨List.reverse_perm _, ?_, by decide⟩
  decide

/-- C4 amended: for every admissible schedule — one that permutes its
input, which is all `par_bridge` guarantees — the sequence returned by
`process_record` is a permutation of the in-order sequence of classified
kept lines: same pairs with the same multiplicities, but the original line
order itself is not guaranteed. -/
theorem process_record_perm_of_line_order
    (sched : List (String × String) → List (String × String))
    (hsched : ∀ l, (sched l).Perm l)
    (cls : String → Option String) (langs : List String)
    (decodeUtf8 : List Nat → Option String)
    (recordId : String) (headers : List (String × String))
    (body : List Nat) (text : String)
    (hdec : decodeUtf8 body = some text) :
    ∃ out,
      (process_record sched cls langs decodeUtf8 recordId headers body).1 =
        some (out, headers) ∧
      out.Perm (((rustLines text).filter
        (fun line => 100 < line.length)).filterMap
          (identify_sentence cls langs)) := by
  exact ⟨_, by simp [process_record, hdec], hsched _⟩

/-- Witness for the amended C4 on the demo record, with the reversing
schedule. -/
theorem process_record_perm_of_line_order_witness :
    (∀ l : List (String × String), (List.reverse l).Perm l) ∧
    asciiDecode demoBody = some demoText ∧
    (∃ out,
      (process_record List.reverse demoCls demoLangs asciiDecode "rec-0" []
          demoBody).1 =
        some (out, []) ∧
      out.Perm (((rustLines demoText).filter
        (fun line => 100 < line.length)).filterMap
          (identify_sentence demoCls demoLangs))) :=
  ⟨fun l => List.reverse_perm l, by decide,
    process_record_perm_of_line_order List.reverse
      (fun l => List.reverse_perm l) demoCls demoLangs asciiDecode "rec-0"
      [] demoBody demoText (by decide)⟩

/- ### Claim theorems: C5 -/

theorem identify_sentence_eq_some
    (cls : String → Option String) (langs : List String) (s : String)
    (p : String × String) :
    identify_sentence cls langs s = some p ↔
      ∃ lab, cls s = some lab ∧ lab ∈ langs ∧ p = (s, lab) := by
  cases hc : cls s with
  | none => simp [identify_sentence, hc]
  | some label =>
    cases hf : langs.find? (fun l => l == label) with
    | none =>
      have hnot : label ∉ langs := by
        intro hmem
        have h := List.find?_eq_none.mp hf label hmem
        simp at h
      simp only [identify_sentence, hc, hf]
      constructor
      · intro h
        simp at h
      · rintro ⟨lab, hlab, hmem, rfl⟩
        obtain rfl : label = lab := Option.some.inj hlab
        exact absurd hmem hnot
    | some lang =>
      have heq : lang = label := by
        have h := List.find?_some hf
        simpa using h
      have hmem : lang ∈ langs := List.mem_of_find?_eq_some hf
      subst heq
      simp only [identify_sentence, hc, hf]
      constructor
      · intro h
        obtain rfl : (s, lang) = p := Option.some.inj h
        exact ⟨lang, rfl, hmem, rfl⟩
      · rintro ⟨lab, hlab, hmem2, rfl⟩
        obtain rfl : lang = lab := Option.some.inj hlab
        rfl

/-- C5: for any admissible schedule and any record whose body decodes, the
pairs emitted by `process_record` contain no line of character count ≤
100, no line for which the classifier returns no prediction, and no line
whose predicted label is absent from the supported-language table — and
every other line of the body appears among the emitted pairs, tagged with
its predicted label. -/
theorem process_record_filtering
    (sched : List (String × String) → List (String × String))
    (hsched : ∀ l, (sched l).Perm l)
    (cls : String → Option String) (langs : List String)
    (decodeUtf8 : List Nat → Option String)
    (recordId : String) (headers : List (String × String))
    (body : List Nat) (text : String)
    (hdec : decodeUtf8 body = some text) :
    ∃ out,
      (process_record sched cls langs decodeUtf8 recordId headers body).1 =
        some (out, headers) ∧
      (∀ p ∈ out, p.1 ∈ rustLines text ∧ 100 < p.1.length ∧
        cls p.1 = some p.2 ∧ p.2 ∈ langs) ∧
      (∀ line ∈ rustLines text,
        ((∃ lg, (line, lg) ∈ out) ↔
          (100 < line.length ∧ ∃ lab, cls line = some lab ∧ lab ∈ langs))) := by
  refine ⟨sched (((rustLines text).filter
      (fun line => 100 < line.length)).filterMap
        (identify_sentence cls langs)),
    by simp [process_record, hdec], ?_, ?_⟩
  · intro p hp
    have hp' : p ∈ ((rustLines text).filter
        (fun line => 100 < line.length)).filterMap
          (identify_sentence cls langs) := (hsched _).mem_iff.mp hp
    obtain ⟨a, ha, hid⟩ := List.mem_filterMap.mp hp'
    obtain ⟨lab, hlab, hmem, rfl⟩ :=
      (identify_sentence_eq_some cls langs a p).mp hid
    have ha' := List.mem_filter.mp ha
    exact ⟨ha'.1, by simpa using ha'.2, hlab, hmem⟩
  · intro line hline
    constructor
    · rintro ⟨lg, hlg⟩
      have hp' : (line, lg) ∈ ((rustLines text).filter
          (fun l => 100 < l.length)).filterMap
            (identify_sentence cls langs) := (hsched _).mem_iff.mp hlg
      obtain ⟨a, ha, hid⟩ := List.mem_filterMap.mp hp'
      obtain ⟨lab, hlab, hmemL, hpair⟩ :=
        (identify_sentence_eq_some cls langs a (line, lg)).mp hid
      injection hpair with h1 h2
      subst h1
      subst h2
      have ha' := List.mem_filter.mp ha
      exact ⟨by simpa using ha'.2, _, hlab, hmemL⟩
    · rintro ⟨hlen, lab, hlab, hmem⟩
      refine ⟨lab, (hsched _).mem_iff.mpr ?_⟩
      refine List.mem_filterMap.mpr ⟨line, ?_, ?_⟩
      · exact List.mem_filter.mpr ⟨hline, by simpa using hlen⟩
      · exact (identify_sentence_eq_some cls langs line (line, lab)).mpr
          ⟨lab, hlab, hmem, rfl⟩

/-- Witness for C5 on the demo record with the identity schedule. -/
theorem process_record_filtering_witness :
    (∀ l : List (String × String), (id l).Perm l) ∧
    asciiDecode demoBody = some demoText ∧
    (∃ out,
      (process_record id demoCls demoLangs asciiDecode "rec-0" []
          demoBody).1 =
        some (out, []) ∧
      (∀ p ∈ out, p.1 ∈ rustLines demoText ∧ 100 < p.1.length ∧
        demoCls p.1 = some p.2 ∧ p.2 ∈ demoLangs) ∧
      (∀ line ∈ rustLines demoText,
        ((∃ lg, (line, lg) ∈ out) ↔
          (100 < line.length ∧
            ∃ lab, demoCls line = some lab ∧ lab ∈ demoLangs)))) :=
  ⟨fun l => List.Perm.refl l, by decide,
    process_record_filtering id (fun l => List.Perm.refl l) demoCls
      demoLangs asciiDecode "rec-0" [] demoBody demoText (by decide)⟩

/- ### Shard loop of `OscarMetadata::run` -/

/-- Outcome of the run: the processed shards (with their enumeration
index), the aggregated shard errors (the `Vec<Error>` collected out of the
shard `filter_map`), and the emitted log lines. -/
structure RunOutcome (α : Type) where
  processed : List (Nat × α)
  errors : List String
  logs : List String

/-- Mirrors the enumerated shard loop of `OscarMetadata::run`: a shard that
fails to open (`Wet::from_path_gzip` error) is logged and its error is the
closure's `Some` result, collected into `r`; a shard that opens is
processed.  Shards are enumerated starting at `idx`. -/
def shard_loop {ρ α : Type} (process : Nat → ρ → α) (idx : Nat) :
    List (Except String ρ) → RunOutcome α
  | [] => ⟨[], [], []⟩
  | .error e :: rest =>
    let o := shard_loop process (idx + 1) rest
    ⟨o.processed, e :: o.errors,
      ("Could not read/open shard " ++ toString idx) :: o.logs⟩
  | .ok records :: rest =>
    let o := shard_loop process (idx + 1) rest
    ⟨(idx, process idx records) :: o.processed, o.errors, o.logs⟩

/-- Mirrors `OscarMetadata::run` after its startup steps (classifier and
content-writer construction, which abort the run when they fail, before
any shard is touched): the shard loop over the enumerated shard list, then
the final summary loop logging every aggregated error, then `Ok(())` —
shard errors never become the run's return value. -/
def run_model {ρ α : Type} (process : Nat → ρ → α)
    (shards : List (Except String ρ)) : Except String (RunOutcome α) :=
  let o := shard_loop process 0 shards
  .ok ⟨o.processed, o.errors,
    o.logs ++ o.errors.map (fun e => "error: " ++ e)⟩

/-- The shards that open successfully, paired with their enumeration
indices starting at `idx`. -/
def okShards {ρ : Type} : List (Except String ρ) → Nat → List (Nat × ρ)
  | [], _ => []
  | .ok r :: rest, idx => (idx, r) :: okShards rest (idx + 1)
  | .error _ :: rest, idx => okShards rest (idx + 1)

theorem shard_loop_spec {ρ α : Type} (process : Nat → ρ → α)
    (shards : List (Except String ρ)) (idx : Nat) :
    (shard_loop process idx shards).errors =
      shards.filterMap (fun s => match s with
        | .error e => some e
        | .ok _ => none) ∧
    (shard_loop process idx shards).processed =
      (okShards shards idx).map (fun ir => (ir.1, process ir.1 ir.2)) := by
  induction shards generalizing idx with
  | nil => simp [shard_loop, okShards]
  | cons s rest ih =>
    cases s with
    | error e =>
      simp [shard_loop, okShards, List.filterMap_cons, (ih (idx + 1)).1,
        (ih (idx + 1)).2]
    | ok r =>
      simp [shard_loop, okShards, List.filterMap_cons, (ih (idx + 1)).1,
        (ih (idx + 1)).2]

/- ### Claim theorem: C6 -/

/-- C6: for every enumeration of shards, some of which fail to open, the
run aggregates exactly the failing shards' errors, logs each of them in
the final summary, processes exactly the shards that opened (skipping only
the failing ones), and still returns `Ok` — no shard-level failure makes
the run as a whole return an error. -/
theorem run_tolerates_shard_failures {ρ α : Type} (process : Nat → ρ → α)
    (shards : List (Except String ρ)) :
    ∃ o, run_model process shards = .ok o ∧
      o.errors = shards.filterMap (fun s => match s with
        | .error e => some e
        | .ok _ => none) ∧
      o.processed = (okShards shards 0).map
        (fun ir => (ir.1, process ir.1 ir.2)) ∧
      (∀ e ∈ o.errors, ("error: " ++ e) ∈ o.logs) := by
  obtain ⟨herr, hproc⟩ := shard_loop_spec process shards 0
  refine ⟨_, rfl, herr, hproc, ?_⟩
  intro e he
  exact List.mem_append_right _ (List.mem_map_of_mem _ he)

/- ### Per-language writer and offset bookkeeping -/

/-- Modelled from the spec: the per-language content writer with its line
counter.  Its Rust code (`crate::io::LangFiles` and the `WriterTrait`
implementation invoked by the per-shard write dispatch in
`OscarMetadata::run`) is not among the given sources.  Per §4.3 each
language owns, behind one mutex, the appended lines and a monotonically
increasing line counter; `append(piece)` appends the piece's lines,
advances the counter, and yields the starting line number, the content
mutation and the counter advance forming one critical section.  The
recorded range of the piece is the half-open interval from the counter
before the append to the counter after it.  Because each append is atomic,
every interleaving of concurrent appends — across any number of shards —
is observed as some serial sequence of appends, so the theorems quantify
over an arbitrary sequence of pieces. -/
structure LangWriterState where
  lines : List String
  ranges : List (Nat × Nat)

/-- One atomic append of a piece: content grows by the piece's lines, and
the range `[old_counter, old_counter + piece_len)` is recorded. -/
def LangWriterState.append (st : LangWriterState) (piece : List String) :
    LangWriterState × (Nat × Nat) :=
  let r := (st.lines.length, st.lines.length + piece.length)
  (⟨st.lines ++ piece, st.ranges ++ [r]⟩, r)

/-- A whole run of appends against one language's writer, starting from the
empty file and counter zero. -/
def appendAll (pieces : List (List String)) : LangWriterState :=
  pieces.foldl (fun st p => (st.append p).1) ⟨[], []⟩

/-- Closed form of the recorded ranges: consecutive half-open intervals of
the given lengths, starting at `start`. -/
def rangesFrom (start : Nat) : List Nat → List (Nat × Nat)
  | [] => []
  | n :: rest => (start, start + n) :: rangesFrom (start + n) rest

theorem appendAll_go (pieces : List (List String)) (st : LangWriterState) :
    pieces.foldl (fun st p => (st.append p).1) st =
      ⟨st.lines ++ pieces.flatten,
        st.ranges ++ rangesFrom st.lines.length (pieces.map List.length)⟩ := by
  induction pieces generalizing st with
  | nil => cases st; simp [rangesFrom]
  | cons p ps ih =>
    cases st with
    | mk ls rs =>
      rw [List.foldl_cons, ih]
      simp [LangWriterState.append, rangesFrom, List.append_assoc]

theorem rangesFrom_bounds (start : Nat) (ns : List Nat) :
    ∀ r ∈ rangesFrom start ns,
      start ≤ r.1 ∧ r.1 ≤ r.2 ∧ r.2 ≤ start + ns.sum := by
  induction ns generalizing start with
  | nil => simp [rangesFrom]
  | cons n rest ih =>
    intro r hr
    simp only [rangesFrom, List.mem_cons] at hr
    rcases hr with rfl | hr
    · simp only [List.sum_cons]
      omega
    · have h := ih (start + n) r hr
      simp only [List.sum_cons]
      omega

theorem rangesFrom_pairwise (start : Nat) (ns : List Nat) :
    (rangesFrom start ns).Pairwise (fun a b => a.2 ≤ b.1) := by
  induction ns generalizing start with
  | nil => simp [rangesFrom]
  | cons n rest ih =>
    refine List.Pairwise.cons ?_ (ih (start + n))
    intro b hb
    exact (rangesFrom_bounds (start + n) rest b hb).1

theorem rangesFrom_sorted (start : Nat) (ns : List Nat) :
    (rangesFrom start ns).Pairwise (fun a b => a.1 ≤ b.1) := by
  refine (rangesFrom_pairwise start ns).imp_of_mem ?_
  intro a b ha hb h
  have hA := rangesFrom_bounds start ns a ha
  omega

theorem rangesFrom_cover (start : Nat) (ns : List Nat) (k : Nat) :
    (start ≤ k ∧ k < start + ns.sum) ↔
      ∃ r ∈ rangesFrom start ns, r.1 ≤ k ∧ k < r.2 := by
  induction ns generalizing start with
  | nil => simp [rangesFrom]
  | cons n rest ih =>
    simp only [rangesFrom, List.mem_cons, List.sum_cons]
    constructor
    · rintro ⟨h1, h2⟩
      by_cases hk : k < start + n
      · exact ⟨(start, start + n), Or.inl rfl, h1, hk⟩
      · obtain ⟨r, hr, hr2⟩ := (ih (start + n)).mp ⟨by omega, by omega⟩
        exact ⟨r, Or.inr hr, hr2⟩
    · rintro ⟨r, hr | hr, h1, h2⟩
      · subst hr
        simp only at h1 h2
        omega
      · have h := (ih (start + n)).mpr ⟨r, hr, h1, h2⟩
        omega

/- ### Claim theorem: C2 -/

/-- C2: for every sequence of pieces appended to one language's writer —
which is how any interleaving of atomic appends across any number of
shards is observed — every recorded range is well-formed, the ranges are
pairwise non-overlapping (each ends no later than the next starts), they
are already sorted by their starting line, and their union exactly covers
the half-open interval `[0, total_lines_written)` with no gaps. -/
theorem append_ranges_tile (pieces : List (List String)) :
    (∀ r ∈ (appendAll pieces).ranges, r.1 ≤ r.2) ∧
    ((appendAll pieces).ranges.Pairwise (fun a b => a.2 ≤ b.1)) ∧
    ((appendAll pieces).ranges.Pairwise (fun a b => a.1 ≤ b.1)) ∧
    (∀ k, k < (appendAll pieces).lines.length ↔
      ∃ r ∈ (appendAll pieces).ranges, r.1 ≤ k ∧ k < r.2) := by
  have h : appendAll pieces =
      ⟨pieces.flatten, rangesFrom 0 (pieces.map List.length)⟩ := by
    simpa [appendAll] using appendAll_go pieces ⟨[], []⟩
  rw [h]
  refine ⟨?_, rangesFrom_pairwise 0 _, rangesFrom_sorted 0 _, ?_⟩
  · intro r hr
    exact (rangesFrom_bounds 0 _ r hr).2.1
  · intro k
    have hlen : pieces.flatten.length = (pieces.map List.length).sum := by
      simp [List.length_flatten]
    rw [hlen]
    simpa using rangesFrom_cover 0 (pieces.map List.length) k

end Ungoliant
